import Mathlib

/-!
Verification development for the playlist-ingestion pipeline of an IPTV
channel-guide application.  The definitions below are a shallow embedding of

  * `src/services/m3uParser.ts`   (single-pass M3U playlist text parser),
  * `src/services/xtreamApi.ts`   (Xtream-Codes provider API client), and
  * `src/hooks/usePlaylist.ts`    (stateful ingestion orchestrator hook),

with JavaScript strings modelled as Lean `String`, 32-bit signed integer
truncation (`|0`, `<<`) modelled explicitly over `Int`, and the
single-threaded event-loop execution of the hook modelled as a small-step
transition system driven by an explicit schedule of events.
-/

set_option maxRecDepth 100000

namespace IPTV

/-! ## JavaScript string primitives -/

/-- The JS whitespace class (ASCII portion) used by both `String.prototype.trim`
and the regex class `\s`.  The parser only ever receives text lines, for which
this ASCII subset is the relevant one. -/
def isJsWs (c : Char) : Bool :=
  c = ' ' || c = '\t' || c = '\n' || c = '\r' || c = Char.ofNat 11 || c = Char.ofNat 12

/-- Trim JS-whitespace from both ends of a character list. -/
def trimL (l : List Char) : List Char :=
  ((l.dropWhile isJsWs).reverse.dropWhile isJsWs).reverse

/-- Model of `String.prototype.trim`. -/
def jsTrim (s : String) : String := ⟨trimL s.data⟩

/-- Model of `String.prototype.startsWith`. -/
def startsWithL (p s : String) : Bool := p.data.isPrefixOf s.data

/-- Strip a literal character-list prefix, returning the remainder on success. -/
def dropLit : List Char → List Char → Option (List Char)
  | [], l => some l
  | _ :: _, [] => none
  | p :: ps, c :: cs => if c = p then dropLit ps cs else none

/-! ## m3uParser.ts -/

/-- `Channel` record from `src/types.ts`. -/
structure Channel where
  id : String
  name : String
  url : String
  logo : String
  group : String
  language : String
deriving DecidableEq, Repr

/-- Boolean test of the anchored regex
`EXTINF_REGEX = /^#EXTINF:\s*-?\d+\s*,?\s*/` (`.test`): the line must start
with `#EXTINF:`, optional whitespace, an optional minus sign and at least one
digit; the trailing `\s*,?\s*` always matches the empty string and so does not
constrain acceptance. -/
def isExtinf (line : String) : Bool :=
  match dropLit "#EXTINF:".data line.data with
  | none => false
  | some r =>
    let r1 := r.dropWhile isJsWs
    let r2 := match r1 with
      | '-' :: t => t
      | _ => r1
    match r2 with
    | c :: _ => c.isDigit
    | [] => false

/-- First match of an attribute regex of the form `pat"([^"]*)"` against the
line, returning the capture: regex search tries successive start positions, and
a start position succeeds exactly when a closing quote follows the literal
pattern, the capture being everything up to that quote. -/
def matchAttr (pat : List Char) : List Char → Option (List Char)
  | [] => none
  | c :: cs =>
    match dropLit pat (c :: cs) with
    | some rest =>
      if '"' ∈ rest then some (rest.takeWhile (fun d => d ≠ '"'))
      else matchAttr pat cs
    | none => matchAttr pat cs

/-- `extractAttribute(line, regex)`: the trimmed first capture, or `""` when
the regex does not match. -/
def extractAttribute (line : String) (pat : String) : String :=
  match matchAttr pat.data line.data with
  | some cap => jsTrim ⟨cap⟩
  | none => ""

/-- Literal part of `TVG_NAME_REGEX = /tvg-name="([^"]*)"/`. -/
def tvgNamePat : String := "tvg-name=\""

/-- Literal part of `TVG_LOGO_REGEX = /tvg-logo="([^"]*)"/`. -/
def tvgLogoPat : String := "tvg-logo=\""

/-- Literal part of `GROUP_REGEX = /group-title="([^"]*)"/`. -/
def groupTitlePat : String := "group-title=\""

/-- Literal part of `TVG_LANG_REGEX = /tvg-language="([^"]*)"/`. -/
def tvgLangPat : String := "tvg-language=\""

/-- `extractDisplayName(line)`: the trimmed text after the **last** comma, or
`"Unknown"` when there is no comma or that text trims to empty.  The text after
the last comma is computed as the reversed longest comma-free suffix. -/
def extractDisplayName (line : String) : String :=
  if ',' ∈ line.data then
    let after : List Char := (line.data.reverse.takeWhile (fun c => c ≠ ',')).reverse
    let t := jsTrim ⟨after⟩
    if t = "" then "Unknown" else t
  else "Unknown"

/-- UTF-16 code units of one character (`charCodeAt` view): characters beyond
the BMP are a surrogate pair. -/
def utf16OfChar (c : Char) : List Nat :=
  let n := c.toNat
  if n < 65536 then [n]
  else [55296 + (n - 65536) / 1024, 56320 + (n - 65536) % 1024]

/-- The UTF-16 code-unit sequence of a JS string. -/
def utf16Units (s : String) : List Nat :=
  s.data.foldr (fun c acc => utf16OfChar c ++ acc) []

/-- Truncation of an integer to a signed 32-bit value, the effect of JS
`| 0` (and the result range of `<<`). -/
def toInt32 (n : Int) : Int :=
  (n + 2147483648) % 4294967296 - 2147483648

/-- One step of the `fastHash` loop:
`hash = ((hash << 5) - hash) + char; hash |= 0`.  `hash << 5` truncates the
product `hash * 32` to 32 bits, and `|= 0` truncates the sum again. -/
def hashStep (h : Int) (c : Nat) : Int :=
  toInt32 (toInt32 (h * 32) - h + (c : Int))

/-- Digit characters of `Number.prototype.toString(36)`: `0`-`9` then `a`-`z`. -/
def base36Digit (n : Nat) : Char :=
  if n < 10 then Char.ofNat (48 + n) else Char.ofNat (87 + n)

/-- Accumulator loop for base-36 rendering; the fuel argument only forces
structural termination and is never exhausted when it starts at `n`, since a
number has no more base-36 digits than its own magnitude. -/
def toBase36Core : Nat → Nat → List Char → List Char
  | 0, n, acc => base36Digit (n % 36) :: acc
  | fuel + 1, n, acc =>
    if n < 36 then base36Digit n :: acc
    else toBase36Core fuel (n / 36) (base36Digit (n % 36) :: acc)

/-- Model of `Number.prototype.toString(36)` on a non-negative integer. -/
def toBase36 (n : Nat) : String := ⟨toBase36Core n n []⟩

/-- `fastHash(str)`: fold `hashStep` over the UTF-16 code units starting from
0, take `Math.abs`, render in base 36. -/
def fastHash (str : String) : String :=
  toBase36 ((utf16Units str).foldl hashStep 0).natAbs

/-- The validity gate on a candidate URL:
`url.startsWith('http://') || url.startsWith('https://')`. -/
def isHttpUrl (u : String) : Bool :=
  startsWithL "http://" u || startsWithL "https://" u

/-- The channel record built in `parseM3U`'s accept branch from the (trimmed)
`#EXTINF` line and the (trimmed) URL line. -/
def mkChannel (line url : String) : Channel :=
  let tvgName := extractAttribute line tvgNamePat
  let displayName := extractDisplayName line
  let name := if tvgName = "" then displayName else tvgName
  let logo := extractAttribute line tvgLogoPat
  let g0 := extractAttribute line groupTitlePat
  let group := if g0 = "" then "Uncategorized" else g0
  let language := extractAttribute line tvgLangPat
  { id := fastHash url, name := name, url := url, logo := logo,
    group := group, language := language }

/-- The URL look-ahead loop of `parseM3U`: scan forward for the first line
whose trimmed form is non-empty and does not start with `#`; return it together
with the lines after it (the outer loop resumes at `j + 1`). -/
def findUrl : List String → Option (String × List String)
  | [] => none
  | l :: ls =>
    let t := jsTrim l
    if t ≠ "" ∧ ¬ startsWithL "#" t then some (t, ls) else findUrl ls

theorem findUrl_rest_length :
    ∀ ls u rest, findUrl ls = some (u, rest) → rest.length < ls.length := by
  intro ls
  induction ls with
  | nil => intro u rest h; simp [findUrl] at h
  | cons l ls ih =>
    intro u rest h
    simp only [findUrl] at h
    split at h
    · cases h; simp
    · have := ih u rest h
      simp only [List.length_cons]
      omega

/-- The main loop of `parseM3U` over the (already split) lines: on a line whose
trimmed form matches the `#EXTINF` marker, look ahead for a URL; emit a channel
exactly when the URL passes the http(s) gate; resume after the URL line (or
stop when no URL line exists).  Non-marker lines are skipped. -/
def parseLines : List String → List Channel
  | [] => []
  | l :: ls =>
    let t := jsTrim l
    if isExtinf t then
      match h : findUrl ls with
      | none => []
      | some (u, rest) =>
        (if isHttpUrl u then [mkChannel t u] else []) ++ parseLines rest
    else parseLines ls
termination_by l => l.length
decreasing_by
  · have := findUrl_rest_length ls u rest h
    simp only [List.length_cons]
    omega
  · simp

/-- The same single pass in streaming form: instead of jumping the index past
the URL line, the loop carries the pending `#EXTINF` line while it skips the
blank and `#`-comment lines of the look-ahead.  `parseLoop_eq_parseLines`
proves this equal to the literal index-jump loop `parseLines`; this form is
structurally recursive and therefore evaluates inside the kernel. -/
def parseLoop : Option String → List String → List Channel
  | none, [] => []
  | some _, [] => []
  | none, l :: ls =>
    let t := jsTrim l
    if isExtinf t then parseLoop (some t) ls else parseLoop none ls
  | some m, l :: ls =>
    let t := jsTrim l
    if t ≠ "" ∧ ¬ startsWithL "#" t then
      (if isHttpUrl t then [mkChannel m t] else []) ++ parseLoop none ls
    else parseLoop (some m) ls

theorem parseLoop_some_eq (m : String) :
    ∀ ls, parseLoop (some m) ls =
      (match findUrl ls with
       | none => []
       | some (u, rest) =>
         (if isHttpUrl u then [mkChannel m u] else []) ++ parseLoop none rest) := by
  intro ls
  induction ls with
  | nil => simp [parseLoop, findUrl]
  | cons l ls ih =>
    simp only [parseLoop, findUrl]
    split
    · rfl
    · exact ih

theorem parseLoop_eq_parseLines : ∀ ls, parseLines ls = parseLoop none ls := by
  intro ls
  induction ls using parseLines.induct with
  | case1 => simp [parseLines, parseLoop]
  | case2 l ls t ht h =>
    rw [parseLines]
    simp only [ht, if_true, parseLoop, parseLoop_some_eq, h]
    split
    · rfl
    · rename_i u rest heq
      rw [h] at heq
      exact absurd heq (by simp)
  | case3 l ls t ht u rest h ih =>
    rw [parseLines]
    simp only [ht, if_true, parseLoop, parseLoop_some_eq, h]
    split
    · rename_i heq
      rw [h] at heq
      exact absurd heq (by simp)
    · rename_i u' rest' heq
      rw [h] at heq
      simp only [Option.some.injEq, Prod.mk.injEq] at heq
      obtain ⟨h1, h2⟩ := heq
      subst h1
      subst h2
      rw [ih]
  | case4 l ls t ht ih =>
    simp [parseLines, parseLoop, ht, ih]

/-- `Set.add` on the category set: JS `Set` keeps first-insertion order and
ignores re-insertions. -/
def catAdd (acc : List String) (g : String) : List String :=
  if g ∈ acc then acc else acc ++ [g]

/-- The category set accumulated over the accepted channels, in insertion
order (one `categorySet.add(group)` per accepted entry). -/
def categoryList (chs : List Channel) : List String :=
  chs.foldl (fun acc ch => catAdd acc ch.group) []

/-- Lexicographic order on character lists by code point, the embedding's model
of default-locale `localeCompare`'s non-negative outcomes (case-sensitive
alphabetical order). -/
def lexLe : List Char → List Char → Bool
  | [], _ => true
  | _ :: _, [] => false
  | a :: as, b :: bs =>
    if a.toNat = b.toNat then lexLe as bs
    else decide (a.toNat < b.toNat)

theorem lexLe_total : ∀ a b, lexLe a b = true ∨ lexLe b a = true := by
  intro a
  induction a with
  | nil => intro b; exact Or.inl rfl
  | cons c cs ih =>
    intro b
    cases b with
    | nil => exact Or.inr rfl
    | cons d ds =>
      simp only [lexLe]
      by_cases h : c.toNat = d.toNat
      · simp only [h, if_true, if_pos rfl]
        exact ih ds
      · have h' : d.toNat ≠ c.toNat := fun e => h e.symm
        simp only [if_neg h, if_neg h', decide_eq_true_eq]
        omega

theorem lexLe_trans :
    ∀ a b c, lexLe a b = true → lexLe b c = true → lexLe a c = true := by
  intro a
  induction a with
  | nil => intro b c _ _; rfl
  | cons x xs ih =>
    intro b c hab hbc
    cases b with
    | nil => simp [lexLe] at hab
    | cons y ys =>
      cases c with
      | nil => simp [lexLe] at hbc
      | cons z zs =>
        simp only [lexLe] at hab hbc ⊢
        by_cases hxy : x.toNat = y.toNat
        · by_cases hyz : y.toNat = z.toNat
          · have hxz : x.toNat = z.toNat := hxy.trans hyz
            simp only [if_pos hxy] at hab
            simp only [if_pos hyz] at hbc
            simp only [if_pos hxz]
            exact ih ys zs hab hbc
          · simp only [if_pos hxy] at hab
            simp only [if_neg hyz, decide_eq_true_eq] at hbc
            have hxz : ¬ x.toNat = z.toNat := by omega
            simp only [if_neg hxz, decide_eq_true_eq]
            omega
        · simp only [if_neg hxy, decide_eq_true_eq] at hab
          by_cases hyz : y.toNat = z.toNat
          · have : ¬ x.toNat = z.toNat := by omega
            simp only [if_neg this, decide_eq_true_eq]
            omega
          · simp only [if_neg hyz, decide_eq_true_eq] at hbc
            have : ¬ x.toNat = z.toNat := by omega
            simp only [if_neg this, decide_eq_true_eq]
            omega

/-- String order used as the model of `a.localeCompare(b) <= 0`. -/
def jsStrLe (a b : String) : Bool := lexLe a.data b.data

/-- The total preorder realised by the category sort comparator
`(a, b) => a === 'Uncategorized' ? 1 : b === 'Uncategorized' ? -1 :
a.localeCompare(b)`: `"Uncategorized"` sorts after everything else, all other
strings in case-sensitive alphabetical order. -/
def catLe (a b : String) : Prop :=
  b = "Uncategorized" ∨ (a ≠ "Uncategorized" ∧ jsStrLe a b = true)

instance : DecidableRel catLe := fun a b =>
  decidable_of_iff (b = "Uncategorized" ∨ (a ≠ "Uncategorized" ∧ jsStrLe a b = true))
    Iff.rfl

instance : IsTotal String catLe where
  total a b := by
    by_cases hb : b = "Uncategorized"
    · exact Or.inl (Or.inl hb)
    · by_cases ha : a = "Uncategorized"
      · exact Or.inr (Or.inl ha)
      · rcases lexLe_total a.data b.data with h | h
        · exact Or.inl (Or.inr ⟨ha, h⟩)
        · exact Or.inr (Or.inr ⟨hb, h⟩)

instance : IsTrans String catLe where
  trans a b c hab hbc := by
    rcases hbc with hc | ⟨hb, hbc⟩
    · exact Or.inl hc
    · rcases hab with hb' | ⟨ha, hab⟩
      · exact absurd hb' hb
      · exact Or.inr ⟨ha, lexLe_trans a.data b.data c.data hab hbc⟩

/-- Result record of `parseM3U` (and of the provider channel loader). -/
structure ParseResult where
  channels : List Channel
  categories : List String
deriving DecidableEq, Repr

/-- Model of `String.prototype.split('\n')` on the character list: every
occurrence of the separator starts a new segment, empty segments included. -/
def splitNl : List Char → List (List Char)
  | [] => [[]]
  | c :: cs =>
    match splitNl cs with
    | h :: t => if c = '\n' then [] :: h :: t else (c :: h) :: t
    | [] => if c = '\n' then [[], []] else [[c]]

/-- `content.split('\n')` as a list of Lean strings. -/
def splitLines (content : String) : List String :=
  (splitNl content.data).map (fun l => ⟨l⟩)

/-- `parseM3U(content)`: split on `'\n'`, run the single-pass line loop, and
sort the collected category set with the `"Uncategorized"`-last comparator
(`Array.prototype.sort` modelled as insertion sort by the comparator's order;
the input is duplicate-free, so any consistent-comparator sort yields this
result).  The loop is `parseLoop none`, proved equal to the literal index-jump
loop `parseLines` by `parseLoop_eq_parseLines`. -/
def parseM3U (content : String) : ParseResult :=
  let channels := parseLoop none (splitLines content)
  { channels := channels,
    categories := List.insertionSort catLe (categoryList channels) }

/-! ## xtreamApi.ts -/

/-- `XtreamCredentials` record. -/
structure XtreamCredentials where
  server : String
  username : String
  password : String
deriving DecidableEq, Repr

/-- `normalizeServer(server)`: trim, prepend `http://` when no scheme prefix
is present, drop all trailing slashes (`replace(/\/+$/, '')`). -/
def normalizeServer (server : String) : String :=
  let s := jsTrim server
  let s := if !(startsWithL "http://" s) && !(startsWithL "https://" s)
           then "http://" ++ s else s
  ⟨(s.data.reverse.dropWhile (fun c => c = '/')).reverse⟩

/-- UTF-8 bytes of a character, for percent-encoding. -/
def utf8Bytes (c : Char) : List Nat :=
  let n := c.toNat
  if n < 128 then [n]
  else if n < 2048 then [192 + n / 64, 128 + n % 64]
  else if n < 65536 then [224 + n / 4096, 128 + (n / 64) % 64, 128 + n % 64]
  else [240 + n / 262144, 128 + (n / 4096) % 64, 128 + (n / 64) % 64, 128 + n % 64]

/-- Uppercase hex digit. -/
def hexDigit (n : Nat) : Char :=
  if n < 10 then Char.ofNat (48 + n) else Char.ofNat (55 + n)

/-- The characters `encodeURIComponent` leaves unescaped:
alphanumerics and `- _ . ! ~ * ' ( )`. -/
def isUriMark (c : Char) : Bool :=
  c.isAlpha || c.isDigit || c = '-' || c = '_' || c = '.' || c = '!' ||
  c = '~' || c = '*' || c = Char.ofNat 39 || c = '(' || c = ')'

/-- Model of the JS global `encodeURIComponent`. -/
def encodeURIComponent (s : String) : String :=
  ⟨s.data.foldr
    (fun c acc =>
      if isUriMark c then c :: acc
      else (utf8Bytes c).foldr (fun b acc2 => '%' :: hexDigit (b / 16) :: hexDigit (b % 16) :: acc2) acc)
    []⟩

/-- `buildStreamUrl(creds, streamId)`: playback URL for a live stream. -/
def buildStreamUrl (creds : XtreamCredentials) (streamId : Nat) : String :=
  normalizeServer creds.server ++ "/live/" ++ encodeURIComponent creds.username ++
    "/" ++ encodeURIComponent creds.password ++ "/" ++ toString streamId ++ ".m3u8"

/-- `XtreamCategory` record of the provider's category JSON. -/
structure XtreamCategory where
  category_id : String
  category_name : String
deriving DecidableEq, Repr

/-- `XtreamStream` record of the provider's stream JSON (fields the mapping
reads; the remaining declared fields do not influence the result). -/
structure XtreamStream where
  num : Nat
  name : String
  stream_type : String
  stream_id : Nat
  stream_icon : String
  epg_channel_id : Option String
  category_id : String
deriving DecidableEq, Repr

/-- `categoryMap.get`: the `Map` is built by one `set` per category record, so
a later record with the same `category_id` overrides an earlier one. -/
def categoryMapGet (cats : List XtreamCategory) (k : String) : Option String :=
  ((cats.reverse.find? (fun c => c.category_id == k)).map (fun c => c.category_name))

/-- Pure core of `loadXtreamChannels(creds, onStatus, signal)`: the two JSON
lists fetched from the provider are passed in as arguments, and the value the
function resolves with is returned.  (The preceding `authenticateXtream` call
and the `onStatus` callbacks do not affect this value; the network layer is
modelled separately.) -/
def loadXtreamChannels (creds : XtreamCredentials)
    (rawCategories : List XtreamCategory) (rawStreams : List XtreamStream) :
    ParseResult :=
  let channels : List Channel := rawStreams.map (fun stream =>
    { id := "xtream_" ++ toString stream.stream_id,
      name := stream.name,
      url := buildStreamUrl creds stream.stream_id,
      logo := if stream.stream_icon = "" then "" else stream.stream_icon,
      group := match categoryMapGet rawCategories stream.category_id with
        | none => "Uncategorized"
        | some g => if g = "" then "Uncategorized" else g,
      language := "" })
  { channels := channels,
    categories := rawCategories.map (fun c => c.category_name) }

/-- The `user_info` structure read by `authenticateXtream` (only the `status`
field is consulted). -/
structure XtreamUserInfo where
  status : String
deriving DecidableEq, Repr

/-- Outcome of `response.json()` on the authentication response: either the
parse rejects with the JSON parser's own error message, or it yields a value
whose `user_info` member is present or absent. -/
inductive XtreamBody where
  | unparseable (msg : String)
  | parsed (user_info : Option XtreamUserInfo)
deriving DecidableEq, Repr

/-- The observable part of the HTTP response `authenticateXtream` receives. -/
structure XtreamResponse where
  ok : Bool
  status : Nat
  body : XtreamBody
deriving DecidableEq, Repr

/-- Error message for a non-success HTTP status. -/
def httpStatusMsg (status : Nat) : String :=
  "Server returned " ++ toString status ++ ". Check your credentials."

/-- Error message for a parseable body with no `user_info` member. -/
def invalidServerMsg : String :=
  "Invalid response from server. This may not be an Xtream Codes server."

/-- Error message for a non-`Active` account status. -/
def accountStatusMsg (status : String) : String :=
  "Account status: " ++ status ++ ". Contact your provider."

/-- `authenticateXtream(creds, signal)` as a function of the received
response: non-`ok` responses throw the HTTP-status error; an unparseable body
propagates the JSON parser's rejection; a body without `user_info` throws the
invalid-server error; a `user_info.status` other than `"Active"` throws the
account-status error; otherwise the user info is returned. -/
def authenticateXtream (resp : XtreamResponse) : Except String XtreamUserInfo :=
  if !resp.ok then .error (httpStatusMsg resp.status)
  else match resp.body with
    | .unparseable msg => .error msg
    | .parsed none => .error invalidServerMsg
    | .parsed (some ui) =>
      if ui.status ≠ "Active" then .error (accountStatusMsg ui.status)
      else .ok ui

/-! ## URL classification (`parseXtreamUrl` and the WHATWG `URL` model) -/

/-- Model of `String.prototype.split` on an arbitrary separator character. -/
def splitChar (sep : Char) : List Char → List (List Char)
  | [] => [[]]
  | c :: cs =>
    match splitChar sep cs with
    | h :: t => if c = sep then [] :: h :: t else (c :: h) :: t
    | [] => if c = sep then [[], []] else [[c]]

/-- Substring containment, the model of `String.prototype.includes`. -/
def listContains (pat : List Char) : List Char → Bool
  | [] => pat.isPrefixOf []
  | c :: cs => pat.isPrefixOf (c :: cs) || listContains pat cs

/-- `s.includes(pat)`. -/
def containsSub (s pat : String) : Bool := listContains pat.data s.data

/-- The fields of a parsed `URL` object the classifier reads. -/
structure UrlObj where
  protocol : String
  host : String
  pathname : String
  query : String
deriving DecidableEq, Repr

/-- Allowed scheme characters after the first letter. -/
def isSchemeChar (c : Char) : Bool :=
  c.isAlpha || c.isDigit || c = '+' || c = '-' || c = '.'

/-- Model of the `new URL(url)` constructor on absolute
`scheme://authority[/path][?query][#fragment]` URLs, the shape the classifier
is used with: `protocol` is the scheme plus `:`, `host` is the authority
(which must be non-empty), `pathname` defaults to `/`, `query` is the search
string without its leading `?`.  Inputs not of this shape fail to parse
(`none`), which the caller turns into a `null` classification.  (WHATWG
canonicalisations that cannot change the classifier's decision —
case-folding, percent-decoding, default-port stripping — are not modelled.) -/
def urlParse (s : String) : Option UrlObj :=
  let l := s.data
  let scheme := l.takeWhile (fun c => c ≠ ':')
  match l.dropWhile (fun c => c ≠ ':') with
  | ':' :: r2 =>
    if (match scheme with | c :: _ => c.isAlpha | [] => false) && scheme.all isSchemeChar then
      match r2 with
      | '/' :: '/' :: r3 =>
        let notAuth : Char → Bool := fun c => c = '/' || c = '?' || c = '#'
        let auth := r3.takeWhile (fun c => !(notAuth c))
        let r4 := r3.dropWhile (fun c => !(notAuth c))
        if auth = [] then none
        else
          let notPath : Char → Bool := fun c => c = '?' || c = '#'
          let path := r4.takeWhile (fun c => !(notPath c))
          let r5 := r4.dropWhile (fun c => !(notPath c))
          let path := if path = [] then ['/'] else path
          let query := match r5 with
            | '?' :: q => q.takeWhile (fun c => c ≠ '#')
            | _ => []
          some { protocol := ⟨scheme ++ [':']⟩, host := ⟨auth⟩,
                 pathname := ⟨path⟩, query := ⟨query⟩ }
      | _ => none
    else none
  | _ => none

/-- `searchParams.get(key)` on the query string: the value of the first
`key=value` pair (`""` when the pair has no `=`), `none` when the key is
absent.  (Percent-decoding is not modelled; the classifier compares the raw
value only against emptiness.) -/
def searchParamsGet (query key : String) : Option String :=
  match (splitChar '&' query.data).find?
      (fun p => p.takeWhile (fun c => c ≠ '=') == key.data) with
  | some p => some ⟨(p.dropWhile (fun c => c ≠ '=')).drop 1⟩
  | none => none

/-- `parseXtreamUrl(url)`: `null` when the URL fails to parse; otherwise
credentials exactly when the pathname contains `get.php` or `player_api.php`
and both a truthy (non-empty) `username` and `password` query parameter exist,
with the server rebuilt from protocol and host only. -/
def parseXtreamUrl (url : String) : Option XtreamCredentials :=
  match urlParse url with
  | none => none
  | some urlObj =>
    if containsSub urlObj.pathname "get.php" || containsSub urlObj.pathname "player_api.php" then
      match searchParamsGet urlObj.query "username", searchParamsGet urlObj.query "password" with
      | some username, some password =>
        if username ≠ "" ∧ password ≠ "" then
          some { server := urlObj.protocol ++ "//" ++ urlObj.host,
                 username := username, password := password }
        else none
      | _, _ => none
    else none

/-! ## usePlaylist.ts — event-loop model

The hook runs on a single-threaded event loop.  `fetchAndParse` suspends at
exactly two points — `await fetch(url, ...)` and `await response.text()` — and
each suspension's promise is either still unsettled, or settled with its
continuation queued.  Aborting a controller rejects a *pending* promise with
`AbortError`; a promise that has already settled (continuation queued) is
unaffected.  A schedule of events drives the model:

  * `load k content` — the user calls `loadPlaylist` on a plain (non-Xtream)
    URL whose server would answer with body `content`; `fetchAndParse` runs its
    synchronous prefix: abort the current controller, install controller `k`,
    `setLoading(true)`, `setError(null)`, suspend at `await fetch`;
  * `settle k` — attempt `k`'s pending promise resolves successfully (the
    model covers successful transport: `response.ok`, no network exception);
  * `run k` — attempt `k`'s queued continuation executes to the next
    suspension point or to completion (try/catch/finally tails);
  * `cancel` — the user calls `cancelLoad()`.
-/

/-- `fetchAndParse`'s classification of an `AbortError` (both the timeout
timer and any external abort surface this way). -/
def timeoutMsg : String :=
  "Connection timed out. The server took too long to respond. Check the URL and try again."

/-- The message `cancelLoad` writes. -/
def cancelledMsg : String := "Load cancelled"

/-- Thrown on a blank response body. -/
def emptyBodyMsg : String := "Server returned an empty response"

/-- Thrown on a parse that yields no channels. -/
def noChannelsMsg : String :=
  "No channels found. The URL may not be a valid M3U playlist."

/-- Settlement state of an attempt's current `await`. -/
inductive Pending where
  | unsettled
  | queuedOk
  | queuedAbort
deriving DecidableEq, Repr

/-- Which `await` of `fetchAndParse` the attempt is suspended at. -/
inductive Pc where
  | awaitFetch
  | awaitText
deriving DecidableEq, Repr

/-- One in-flight `fetchAndParse` invocation: its suspension point, the
settlement state of the awaited promise, and the body text its server would
deliver. -/
structure Proc where
  pc : Pc
  pending : Pending
  content : String
deriving DecidableEq, Repr

/-- The hook's reactive state plus the `abortRef` mutable ref (identified by
the controller's attempt number). -/
structure HookState where
  channels : List Channel
  categories : List String
  loading : Bool
  error : Option String
  abortRef : Option Nat
deriving DecidableEq, Repr

/-- Hook state together with the set of live `fetchAndParse` invocations. -/
structure World where
  hook : HookState
  procs : List (Nat × Proc)
deriving DecidableEq, Repr

/-- Look up a live invocation by its controller number. -/
def getProc (w : World) (k : Nat) : Option Proc :=
  (w.procs.find? (fun q => q.1 == k)).map Prod.snd

/-- Replace the state of invocation `k`. -/
def setProc (k : Nat) (pr : Proc) (ps : List (Nat × Proc)) : List (Nat × Proc) :=
  ps.map (fun q => if q.1 == k then (k, pr) else q)

/-- Remove invocation `k` (its `fetchAndParse` call returned). -/
def delProc (k : Nat) (ps : List (Nat × Proc)) : List (Nat × Proc) :=
  ps.filter (fun q => q.1 != k)

/-- `controller.abort()` for controller `k`: a pending (unsettled) promise of
that attempt rejects with `AbortError`; an already-settled promise is
unaffected. -/
def abortCtrl (k : Nat) (w : World) : World :=
  { w with procs := w.procs.map (fun q =>
      if q.1 == k ∧ q.2.pending = Pending.unsettled then
        (q.1, { q.2 with pending := Pending.queuedAbort })
      else q) }

/-- `abortRef.current?.abort()`. -/
def abortCurrent (w : World) : World :=
  match w.hook.abortRef with
  | some k => abortCtrl k w
  | none => w

/-- The `catch`+`finally` tail of `fetchAndParse`: `setError(msg)`, then
`setLoading(false)` and `abortRef.current = null` — the ref is nulled
unconditionally, even when it meanwhile holds a newer attempt's controller. -/
def finishErr (k : Nat) (msg : String) (w : World) : World :=
  { hook := { w.hook with error := some msg, loading := false, abortRef := none },
    procs := delProc k w.procs }

/-- The commit+`finally` tail: `setChannels`, `setCategories`, then
`setLoading(false)` and `abortRef.current = null` (again unconditional). -/
def finishCommit (k : Nat) (r : ParseResult) (w : World) : World :=
  { hook := { w.hook with
                channels := r.channels
                categories := r.categories
                loading := false
                abortRef := none },
    procs := delProc k w.procs }

/-- Schedule events (see the section header). -/
inductive Ev where
  | load (k : Nat) (content : String)
  | settle (k : Nat)
  | run (k : Nat)
  | cancel
deriving DecidableEq, Repr

/-- One event-loop step of the hook model. -/
def step (w : World) : Ev → World
  | .load k content =>
    let w1 := abortCurrent w
    { hook := { w1.hook with abortRef := some k, loading := true, error := none },
      procs := w1.procs ++ [(k, ⟨Pc.awaitFetch, Pending.unsettled, content⟩)] }
  | .settle k =>
    match getProc w k with
    | some pr =>
      if pr.pending = Pending.unsettled then
        { w with procs := setProc k { pr with pending := Pending.queuedOk } w.procs }
      else w
    | none => w
  | .cancel =>
    let w1 := abortCurrent w
    { w1 with hook := { w1.hook with loading := false, error := some cancelledMsg } }
  | .run k =>
    match getProc w k with
    | none => w
    | some pr =>
      match pr.pc, pr.pending with
      | _, Pending.unsettled => w
      | _, Pending.queuedAbort => finishErr k timeoutMsg w
      | Pc.awaitFetch, Pending.queuedOk =>
        { w with procs := setProc k ⟨Pc.awaitText, Pending.unsettled, pr.content⟩ w.procs }
      | Pc.awaitText, Pending.queuedOk =>
        if jsTrim pr.content = "" then finishErr k emptyBodyMsg w
        else
          let result := parseM3U pr.content
          if result.channels = [] then finishErr k noChannelsMsg w
          else finishCommit k result w

/-- The hook's initial state (`useState` initialisers). -/
def initWorld : World :=
  { hook := { channels := [], categories := [], loading := true,
              error := none, abortRef := none },
    procs := [] }

/-- Run a schedule from the initial state. -/
def runWorld (evs : List Ev) : World := evs.foldl step initWorld

/-- The routing head of `fetchAndParse`: a URL that classifies as Xtream
credentials is delegated to `fetchXtream` and never reaches the text-parser
path. -/
def routesToProvider (url : String) : Bool := (parseXtreamUrl url).isSome

/-! ## Helper lemmas about the parser loop -/

theorem parseLoop_mem :
    ∀ (ls : List String) (st : Option String) (ch : Channel),
      ch ∈ parseLoop st ls → ∃ t u, isHttpUrl u = true ∧ ch = mkChannel t u := by
  intro ls
  induction ls with
  | nil =>
    intro st ch h
    cases st <;> simp [parseLoop] at h
  | cons l ls ih =>
    intro st ch h
    cases st with
    | none =>
      simp only [parseLoop] at h
      split at h
      · exact ih _ ch h
      · exact ih _ ch h
    | some m =>
      simp only [parseLoop] at h
      split at h
      · rw [List.mem_append] at h
        rcases h with h | h
        · split at h
          · rename_i hhttp
            simp only [List.mem_singleton] at h
            exact ⟨m, jsTrim l, hhttp, h⟩
          · simp at h
        · exact ih none ch h
      · exact ih (some m) ch h

theorem parseLoop_no_marker :
    ∀ ls, (∀ l ∈ ls, isExtinf (jsTrim l) = false) → parseLoop none ls = [] := by
  intro ls
  induction ls with
  | nil => intro _; rfl
  | cons l ls ih =>
    intro h
    have h1 := h l (by simp)
    simp only [parseLoop, h1, Bool.false_eq_true, if_false]
    exact ih (fun x hx => h x (by simp [hx]))

theorem isExtinf_starts_hash (s : String) (h : isExtinf s = true) :
    startsWithL "#" s = true := by
  unfold isExtinf at h
  cases hd : s.data with
  | nil =>
    rw [hd] at h
    have : dropLit "#EXTINF:".data [] = none := rfl
    rw [this] at h
    exact absurd h (by simp)
  | cons c cs =>
    rw [hd] at h
    by_cases hc : c = '#'
    · subst hc
      simp [startsWithL, hd, List.isPrefixOf]
    · exfalso
      have : dropLit "#EXTINF:".data (c :: cs) = none := by
        show dropLit ('#' :: "EXTINF:".data) (c :: cs) = none
        simp [dropLit, hc]
      rw [this] at h
      exact absurd h (by simp)

theorem findUrl_skip :
    ∀ (ms : List String) (u : String) (rest : List String),
      (∀ l ∈ ms, jsTrim l = "" ∨ startsWithL "#" (jsTrim l) = true) →
      jsTrim u ≠ "" → startsWithL "#" (jsTrim u) = false →
      findUrl (ms ++ u :: rest) = some (jsTrim u, rest) := by
  intro ms
  induction ms with
  | nil =>
    intro u rest _ hu hhash
    simp only [List.nil_append, findUrl]
    rw [if_pos ⟨hu, by simp [hhash]⟩]
  | cons l ms ih =>
    intro u rest h hu hhash
    have hl := h l (by simp)
    simp only [List.cons_append, findUrl]
    rw [if_neg]
    · exact ih u rest (fun x hx => h x (by simp [hx])) hu hhash
    · rintro ⟨h1, h2⟩
      rcases hl with hl | hl
      · exact h1 hl
      · exact h2 hl

/-! ## Claim C1 -/

/-- **C1**: `parseM3U` is a total function (it returns normally on every
input string — in this embedding it is a Lean function on `String`), every
channel in its result has a `url` starting with `http://` or `https://`
(entries whose looked-up URL is missing or has another scheme are silently
skipped, producing no channel), and a playlist with no metadata-marker line
produces no channels at all. -/
theorem parseM3U_url_gate :
    ∀ content : String,
      (∀ ch ∈ (parseM3U content).channels,
        startsWithL "http://" ch.url = true ∨ startsWithL "https://" ch.url = true) ∧
      ((∀ l ∈ splitLines content, isExtinf (jsTrim l) = false) →
        (parseM3U content).channels = []) := by
  intro content
  constructor
  · intro ch hch
    have hmem : ch ∈ parseLoop none (splitLines content) := hch
    obtain ⟨t, u, hu, rfl⟩ := parseLoop_mem _ _ _ hmem
    have hurl : (mkChannel t u).url = u := by simp [mkChannel]
    rw [hurl]
    simpa [isHttpUrl, Bool.or_eq_true] using hu
  · intro h
    exact parseLoop_no_marker _ h

/-- Witness for C1 at concrete inputs: a two-entry playlist (one `http` entry,
one `ftp` entry) passes the gate, and a markerless text yields no channels. -/
theorem parseM3U_url_gate_witness :
    (∀ ch ∈ (parseM3U "#EXTINF:-1,A\nhttp://a/1\n#EXTINF:-1,B\nftp://b/2").channels,
      startsWithL "http://" ch.url = true ∨ startsWithL "https://" ch.url = true) ∧
    (parseM3U "just text\nhttp://no-marker/stream").channels = [] :=
  ⟨(parseM3U_url_gate "#EXTINF:-1,A\nhttp://a/1\n#EXTINF:-1,B\nftp://b/2").1,
   (parseM3U_url_gate "just text\nhttp://no-marker/stream").2 (by decide)⟩

/-! ## Claim C2 -/

/-- **C2**: every accepted entry's `id` is `fastHash` of the entry's URL and
of nothing else — `fastHash` being the pinned rolling fold `hashStep` over the
URL's UTF-16 code units with 32-bit signed truncation at each step, absolute
value and base-36 rendering — so any two channels with equal URLs, from the
same parse or from re-parsing any input, carry equal ids. -/
theorem parseM3U_id_pinned :
    ∀ content : String, ∀ ch ∈ (parseM3U content).channels,
      ch.id = fastHash ch.url ∧
      ch.id = toBase36 (((utf16Units ch.url).foldl hashStep 0).natAbs) ∧
      (∀ content2 : String, ∀ ch2 ∈ (parseM3U content2).channels,
        ch2.url = ch.url → ch2.id = ch.id) := by
  have key : ∀ content : String, ∀ ch ∈ (parseM3U content).channels,
      ch.id = fastHash ch.url := by
    intro content ch hch
    obtain ⟨t, u, _, rfl⟩ := parseLoop_mem _ _ _ hch
    simp [mkChannel, fastHash]
  intro content ch hch
  refine ⟨key content ch hch, key content ch hch, ?_⟩
  intro content2 ch2 hch2 hurl
  rw [key content2 ch2 hch2, key content ch hch, hurl]

/-- Witness for C2: re-parsing the same concrete playlist (and a second
playlist sharing the URL) yields the same id, which equals the URL hash. -/
theorem parseM3U_id_pinned_witness :
    (mkChannel "#EXTINF:-1,A" "http://a/1").id = fastHash "http://a/1" := by
  have h := (parseM3U_id_pinned "#EXTINF:-1,A\nhttp://a/1"
    (mkChannel "#EXTINF:-1,A" "http://a/1") (by decide)).1
  rw [h]
  rfl

/-! ## Claim C10 -/

/-- **C10**: in the URL look-ahead every `#`-line — in particular a further
`#EXTINF` metadata line — is skipped as a comment, so when a metadata line is
followed by more metadata lines and then the first non-blank non-`#` line,
that line is taken as the URL and paired with the *first* metadata line's
attributes, the intermediate metadata lines are consumed without emission, and
the whole run yields at most one channel (exactly the gated emission), parsing
resuming after the URL line. -/
theorem parseLines_lookahead_pairing :
    ∀ (m : String) (ms : List String) (u : String) (rest : List String),
      isExtinf (jsTrim m) = true →
      (∀ l ∈ ms, isExtinf (jsTrim l) = true) →
      jsTrim u ≠ "" →
      startsWithL "#" (jsTrim u) = false →
      parseLines (m :: (ms ++ u :: rest)) =
        (if isHttpUrl (jsTrim u) then [mkChannel (jsTrim m) (jsTrim u)] else []) ++
          parseLines rest := by
  intro m ms u rest hm hms hu hhash
  rw [parseLoop_eq_parseLines, parseLoop_eq_parseLines]
  simp only [parseLoop, hm, if_true]
  rw [parseLoop_some_eq,
    findUrl_skip ms u rest (fun l hl => Or.inr (isExtinf_starts_hash _ (hms l hl))) hu hhash]

/-- Witness for C10: two consecutive metadata lines followed by one URL line
produce exactly one channel, built from the first metadata line. -/
theorem parseLines_lookahead_pairing_witness :
    parseLines ["#EXTINF:-1,A", "#EXTINF:-1,B", "http://x/1"] =
      (if isHttpUrl (jsTrim "http://x/1") then
        [mkChannel (jsTrim "#EXTINF:-1,A") (jsTrim "http://x/1")] else []) ++
        parseLines [] :=
  parseLines_lookahead_pairing "#EXTINF:-1,A" ["#EXTINF:-1,B"] "http://x/1" []
    (by decide) (by decide) (by decide) (by decide)

/-! ## Claim C9 -/

theorem takeWhile_append_stop {α : Type} (p : α → Bool) :
    ∀ (xs : List α) (y : α) (ys : List α),
      (∀ x ∈ xs, p x = true) → p y = false →
      (xs ++ y :: ys).takeWhile p = xs := by
  intro xs
  induction xs with
  | nil =>
    intro y ys _ hy
    simp [List.takeWhile_cons, hy]
  | cons x xs ih =>
    intro y ys h hy
    have hx := h x (by simp)
    simp [List.takeWhile_cons, hx, ih y ys (fun a ha => h a (by simp [ha])) hy]

/-- **C9**: the emitted channel name is the `tvg-name` attribute when its
trimmed capture is non-empty, else the trimmed text following the last comma
of the metadata line, else the literal `"Unknown"` (no comma at all, or the
trailing segment trims to empty). -/
theorem channel_name_resolution :
    (∀ s : String, ',' ∉ s.data → extractDisplayName s = "Unknown") ∧
    (∀ pre post : String, ',' ∉ post.data →
      extractDisplayName (pre ++ "," ++ post) =
        (if jsTrim post = "" then "Unknown" else jsTrim post)) ∧
    (∀ t u : String, (mkChannel t u).name =
      (if extractAttribute t tvgNamePat = "" then extractDisplayName t
       else extractAttribute t tvgNamePat)) := by
  refine ⟨?_, ?_, ?_⟩
  · intro s h
    unfold extractDisplayName
    rw [if_neg h]
  · intro pre post h
    have hdata : (pre ++ "," ++ post).data = pre.data ++ ',' :: post.data := by
      have h1 : (pre ++ "," ++ post).data = pre.data ++ ",".data ++ post.data := by
        rw [String.data_append, String.data_append]
      rw [h1]
      have h2 : ",".data = [','] := rfl
      rw [h2, List.append_assoc]
      rfl
    unfold extractDisplayName
    rw [hdata, if_pos (by simp)]
    have hrev : (pre.data ++ ',' :: post.data).reverse =
        post.data.reverse ++ ',' :: pre.data.reverse := by
      rw [List.reverse_append, List.reverse_cons, List.append_assoc]
      rfl
    rw [hrev, takeWhile_append_stop _ post.data.reverse ',' pre.data.reverse
      (by
        intro x hx
        rw [List.mem_reverse] at hx
        simp only [decide_eq_true_eq]
        intro he
        exact h (he ▸ hx))
      (by simp), List.reverse_reverse]
  · intro t u
    rfl

/-- Witness for C9 at concrete metadata lines: a trailing segment gives the
trimmed name, an empty trailing segment gives `"Unknown"`, a comma-free line
gives `"Unknown"`. -/
theorem channel_name_resolution_witness :
    extractDisplayName ("#EXTINF:-1" ++ "," ++ " Channel Five ") =
      (if jsTrim " Channel Five " = "" then "Unknown" else jsTrim " Channel Five ") ∧
    extractDisplayName ("#EXTINF:-1" ++ "," ++ "  ") =
      (if jsTrim "  " = "" then "Unknown" else jsTrim "  ") ∧
    extractDisplayName "#EXTINF:-1" = "Unknown" :=
  ⟨channel_name_resolution.2.1 "#EXTINF:-1" " Channel Five " (by decide),
   channel_name_resolution.2.1 "#EXTINF:-1" "  " (by decide),
   channel_name_resolution.1 "#EXTINF:-1" (by decide)⟩

/-! ## Claim C3 -/

theorem catAdd_mem (acc : List String) (x g : String) :
    g ∈ catAdd acc x ↔ g ∈ acc ∨ g = x := by
  unfold catAdd
  split
  · rename_i hx
    constructor
    · exact Or.inl
    · rintro (h | rfl)
      · exact h
      · exact hx
  · simp

theorem catAdd_nodup (acc : List String) (x : String) (h : acc.Nodup) :
    (catAdd acc x).Nodup := by
  unfold catAdd
  split
  · exact h
  · rename_i hx
    simp [List.nodup_append, h, hx]

theorem categoryList_mem_aux :
    ∀ (chs : List Channel) (acc : List String) (g : String),
      g ∈ chs.foldl (fun acc ch => catAdd acc ch.group) acc ↔
        g ∈ acc ∨ ∃ ch ∈ chs, ch.group = g := by
  intro chs
  induction chs with
  | nil => simp
  | cons ch chs ih =>
    intro acc g
    rw [List.foldl_cons, ih, catAdd_mem]
    constructor
    · rintro ((h | h) | ⟨c, hc, rfl⟩)
      · exact Or.inl h
      · exact Or.inr ⟨ch, by simp, h.symm⟩
      · exact Or.inr ⟨c, by simp [hc], rfl⟩
    · rintro (h | ⟨c, hc, rfl⟩)
      · exact Or.inl (Or.inl h)
      · rcases List.mem_cons.mp hc with rfl | hc
        · exact Or.inl (Or.inr rfl)
        · exact Or.inr ⟨c, hc, rfl⟩

theorem categoryList_mem (chs : List Channel) (g : String) :
    g ∈ categoryList chs ↔ ∃ ch ∈ chs, ch.group = g := by
  rw [categoryList, categoryList_mem_aux]
  simp

theorem categoryList_nodup (chs : List Channel) : (categoryList chs).Nodup := by
  have aux : ∀ (chs : List Channel) (acc : List String), acc.Nodup →
      (chs.foldl (fun acc ch => catAdd acc ch.group) acc).Nodup := by
    intro chs
    induction chs with
    | nil => intro acc h; exact h
    | cons ch chs ih =>
      intro acc h
      exact ih _ (catAdd_nodup acc ch.group h)
  exact aux chs [] List.nodup_nil

theorem sorted_uncat_last :
    ∀ l : List String, l.Sorted catLe → l.Nodup → "Uncategorized" ∈ l →
      l.getLast? = some "Uncategorized" := by
  intro l
  induction l with
  | nil => intro _ _ h; simp at h
  | cons a t ih =>
    intro hs hn hm
    rw [List.sorted_cons] at hs
    by_cases ht : "Uncategorized" ∈ t
    · cases t with
      | nil => simp at ht
      | cons b t' =>
        rw [List.getLast?_cons_cons]
        exact ih hs.2 (List.Nodup.of_cons hn) ht
    · have ha : a = "Uncategorized" := by
        rcases List.mem_cons.mp hm with h | h
        · exact h.symm
        · exact absurd h ht
      have ht0 : t = [] := by
        cases t with
        | nil => rfl
        | cons b t' =>
          exfalso
          have hb := hs.1 b (by simp)
          rcases hb with hb | ⟨hne, _⟩
          · exact ht (by simp [hb.symm, List.mem_cons])
          · exact hne ha
      subst ht0
      subst ha
      rfl

/-- **C3** (text-parser part of the claim, which the counterexample below
corrects for the provider path): `parseM3U`'s category list is duplicate-free,
sorted ascending by the case-sensitive alphabetical comparator order `catLe`
with `"Uncategorized"` sorting last, `"Uncategorized"` is the last element
whenever present, and the members are exactly the distinct `group` values of
the accepted channels. -/
theorem parseM3U_categories_spec :
    ∀ content : String,
      ((parseM3U content).categories.Nodup) ∧
      ((parseM3U content).categories.Sorted catLe) ∧
      ("Uncategorized" ∈ (parseM3U content).categories →
        (parseM3U content).categories.getLast? = some "Uncategorized") ∧
      (∀ g, g ∈ (parseM3U content).categories ↔
        ∃ ch ∈ (parseM3U content).channels, ch.group = g) := by
  intro content
  have hperm := List.perm_insertionSort catLe
    (categoryList (parseLoop none (splitLines content)))
  have hnodup : (parseM3U content).categories.Nodup :=
    hperm.nodup_iff.mpr (categoryList_nodup _)
  have hsorted : (parseM3U content).categories.Sorted catLe :=
    List.sorted_insertionSort catLe _
  refine ⟨hnodup, hsorted, ?_, ?_⟩
  · intro hm
    exact sorted_uncat_last _ hsorted hnodup hm
  · intro g
    show g ∈ List.insertionSort catLe (categoryList _) ↔ _
    rw [List.mem_insertionSort, categoryList_mem]
    exact Iff.rfl

/-- Witness for C3's theorem at a concrete playlist whose groups arrive
unsorted and include `"Uncategorized"`. -/
theorem parseM3U_categories_spec_witness :
    ((parseM3U "#EXTINF:-1 group-title=\"Zeta\",A\nhttp://a\n#EXTINF:-1,B\nhttp://b\n#EXTINF:-1 group-title=\"Alpha\",C\nhttp://c").categories.getLast? =
      some "Uncategorized") ∧
    ((parseM3U "#EXTINF:-1 group-title=\"Zeta\",A\nhttp://a\n#EXTINF:-1,B\nhttp://b\n#EXTINF:-1 group-title=\"Alpha\",C\nhttp://c").categories =
      ["Alpha", "Zeta", "Uncategorized"]) :=
  ⟨(parseM3U_categories_spec "#EXTINF:-1 group-title=\"Zeta\",A\nhttp://a\n#EXTINF:-1,B\nhttp://b\n#EXTINF:-1 group-title=\"Alpha\",C\nhttp://c").2.2.1
    (by decide), by decide⟩

/-- Counterexample to **C3** as stated over *every* ingestion result: the
provider path (`loadXtreamChannels`) returns the server-supplied category
names verbatim, so a server listing `"Uncategorized"` first leaves it in a
non-final position, and a server repeating a category name produces
duplicates. -/
theorem xtream_categories_counterexample :
    ((loadXtreamChannels ⟨"http://h", "u", "p"⟩
        [⟨"1", "Uncategorized"⟩, ⟨"2", "Alpha"⟩] []).categories =
      ["Uncategorized", "Alpha"]) ∧
    ("Uncategorized" ∈ (loadXtreamChannels ⟨"http://h", "u", "p"⟩
        [⟨"1", "Uncategorized"⟩, ⟨"2", "Alpha"⟩] []).categories ∧
      (loadXtreamChannels ⟨"http://h", "u", "p"⟩
        [⟨"1", "Uncategorized"⟩, ⟨"2", "Alpha"⟩] []).categories.getLast? ≠
        some "Uncategorized") ∧
    ¬ (loadXtreamChannels ⟨"http://h", "u", "p"⟩
        [⟨"1", "News"⟩, ⟨"2", "News"⟩] []).categories.Nodup := by
  refine ⟨by decide, ⟨by decide, by decide⟩, by decide⟩

/-! ## Claim C7 -/

theorem isPrefixOf_append_self :
    ∀ (pat post : List Char), pat.isPrefixOf (pat ++ post) = true := by
  intro pat
  induction pat with
  | nil => intro post; cases post <;> rfl
  | cons c cs ih =>
    intro post
    simp [List.isPrefixOf, List.cons_append, ih]

theorem listContains_sandwich :
    ∀ (pre pat post : List Char), listContains pat (pre ++ pat ++ post) = true := by
  intro pre
  induction pre with
  | nil =>
    intro pat post
    cases pat with
    | nil =>
      cases post with
      | nil => rfl
      | cons c cs => simp [listContains, List.isPrefixOf]
    | cons p ps =>
      simp only [List.nil_append, List.cons_append, listContains, Bool.or_eq_true]
      exact Or.inl (isPrefixOf_append_self (p :: ps) post)
  | cons c pre ih =>
    intro pat post
    simp only [List.cons_append, listContains, Bool.or_eq_true]
    exact Or.inr (ih pat post)

theorem accountStatusMsg_contains (s : String) :
    containsSub (accountStatusMsg s) s = true := by
  unfold containsSub accountStatusMsg
  have hd : ("Account status: " ++ s ++ ". Contact your provider.").data =
      "Account status: ".data ++ s.data ++ ". Contact your provider.".data := by
    rw [String.data_append, String.data_append]
  rw [hd]
  exact listContains_sandwich _ _ _

/-- **C7** (as amended): `authenticateXtream` succeeds exactly when the HTTP
response is `ok`, its body parses and carries a `user_info`, and
`user_info.status` is `"Active"`; any other status fails with the
account-status error, whose message contains the literal status string; a
non-`ok` HTTP response fails with the HTTP-status error; a parseable body with
no `user_info` fails with the invalid-server error; an unparseable body
propagates the JSON parser's own error rather than an invalid-server one. -/
theorem authenticateXtream_spec :
    (∀ resp : XtreamResponse,
      ((∃ ui, authenticateXtream resp = .ok ui) ↔
        (resp.ok = true ∧ ∃ ui, resp.body = .parsed (some ui) ∧ ui.status = "Active")) ∧
      (∀ ui, resp.ok = true → resp.body = .parsed (some ui) → ui.status ≠ "Active" →
        authenticateXtream resp = .error (accountStatusMsg ui.status)) ∧
      (resp.ok = false → authenticateXtream resp = .error (httpStatusMsg resp.status)) ∧
      (∀ msg, resp.ok = true → resp.body = .unparseable msg →
        authenticateXtream resp = .error msg) ∧
      (resp.ok = true → resp.body = .parsed none →
        authenticateXtream resp = .error invalidServerMsg)) ∧
    (∀ s : String, containsSub (accountStatusMsg s) s = true) := by
  constructor
  · intro resp
    obtain ⟨ok, status, body⟩ := resp
    cases ok
    · simp [authenticateXtream]
    · cases body with
      | unparseable msg => simp [authenticateXtream]
      | parsed uio =>
        cases uio with
        | none => simp [authenticateXtream]
        | some ui =>
          by_cases hst : ui.status = "Active"
          · simp [authenticateXtream, hst]
          · simp [authenticateXtream, hst]
  · exact accountStatusMsg_contains

/-- Witness for C7: the end-to-end `"Banned"` case — response `ok`, body
recognised, status `"Banned"` — fails with an error containing `"Banned"`. -/
theorem authenticateXtream_spec_witness :
    authenticateXtream ⟨true, 200, .parsed (some ⟨"Banned"⟩)⟩ =
      .error (accountStatusMsg "Banned") ∧
    containsSub (accountStatusMsg "Banned") "Banned" = true :=
  ⟨(authenticateXtream_spec.1 ⟨true, 200, .parsed (some ⟨"Banned"⟩)⟩).2.1
      ⟨"Banned"⟩ rfl rfl (by decide),
   authenticateXtream_spec.2 "Banned"⟩

/-- Counterexample to **C7** as stated: on a successful HTTP response whose
body does not parse as JSON, the failure is the JSON parser's propagated
rejection, not an "invalid server"-style error (and not the HTTP-status
error either). -/
theorem authenticateXtream_unparseable_counterexample :
    authenticateXtream ⟨true, 200, .unparseable "Unexpected token < in JSON"⟩ =
      .error "Unexpected token < in JSON" ∧
    "Unexpected token < in JSON" ≠ invalidServerMsg ∧
    "Unexpected token < in JSON" ≠ httpStatusMsg 200 := by
  refine ⟨rfl, by decide, by decide⟩

/-! ## Claim C8 -/

/-- **C8**: `parseXtreamUrl` is total and returns credentials exactly when the
input parses as a URL whose pathname contains `get.php` or `player_api.php`
and whose query carries non-empty `username` and `password` parameters, the
returned `server` being rebuilt from protocol and host alone; on every other
input — unparseable strings included — it returns `none`; and `fetchAndParse`
routes any URL that classifies this way to the provider path. -/
theorem parseXtreamUrl_spec :
    ∀ url : String,
      (urlParse url = none → parseXtreamUrl url = none) ∧
      (∀ creds, parseXtreamUrl url = some creds ↔
        ∃ urlObj, urlParse url = some urlObj ∧
          (containsSub urlObj.pathname "get.php" = true ∨
            containsSub urlObj.pathname "player_api.php" = true) ∧
          searchParamsGet urlObj.query "username" = some creds.username ∧
          searchParamsGet urlObj.query "password" = some creds.password ∧
          creds.username ≠ "" ∧ creds.password ≠ "" ∧
          creds.server = urlObj.protocol ++ "//" ++ urlObj.host) ∧
      (∀ creds, parseXtreamUrl url = some creds → routesToProvider url = true) := by
  intro url
  refine ⟨?_, ?_, ?_⟩
  · intro h
    simp [parseXtreamUrl, h]
  · intro creds
    constructor
    · intro h
      unfold parseXtreamUrl at h
      cases hu : urlParse url with
      | none => rw [hu] at h; exact absurd h (by simp)
      | some o =>
        rw [hu] at h
        split at h
        · rename_i heq
          exact absurd heq (by simp)
        · rename_i urlObj heq
          injection heq with heq'
          subst heq'
          split at h
          · rename_i hfrag
            split at h
            · rename_i u p hu2 hp2
              split at h
              · rename_i hnon
                injection h with h'
                subst h'
                refine ⟨o, rfl, ?_, ?_, ?_, ?_, ?_, ?_⟩
                · simpa [Bool.or_eq_true] using hfrag
                · exact hu2
                · exact hp2
                · exact hnon.1
                · exact hnon.2
                · rfl
              · exact absurd h (by simp)
            · exact absurd h (by simp)
          · exact absurd h (by simp)
    · rintro ⟨o, hu, hfrag, hun, hpw, hune, hpwe, hserver⟩
      obtain ⟨cs, cu, cp⟩ := creds
      dsimp only at hun hpw hune hpwe hserver
      subst hserver
      unfold parseXtreamUrl
      rw [hu]
      have hfragb :
          (containsSub o.pathname "get.php" || containsSub o.pathname "player_api.php") = true := by
        rcases hfrag with h | h <;> simp [h]
      simp only [hfragb, if_true, hun, hpw]
      rw [if_pos ⟨hune, hpwe⟩]
  · intro creds h
    simp [routesToProvider, h]

/-- Witness for C8: a canonical provider URL classifies to its credentials and
routes to the provider path; a texture of negative cases returns `none`. -/
theorem parseXtreamUrl_spec_witness :
    parseXtreamUrl "http://example.com:8080/get.php?username=bob&password=secret&type=m3u_plus" =
      some ⟨"http://example.com:8080", "bob", "secret"⟩ ∧
    routesToProvider "http://example.com:8080/get.php?username=bob&password=secret&type=m3u_plus" = true ∧
    parseXtreamUrl "not a url" = none ∧
    parseXtreamUrl "http://example.com/playlist.m3u" = none ∧
    parseXtreamUrl "http://example.com/player_api.php?username=bob&password=" = none :=
  ⟨by decide,
   (parseXtreamUrl_spec "http://example.com:8080/get.php?username=bob&password=secret&type=m3u_plus").2.2
     ⟨"http://example.com:8080", "bob", "secret"⟩ (by decide),
   (parseXtreamUrl_spec "not a url").1 (by decide),
   by decide, by decide⟩

/-! ## Claim C4 -/

/-- **C4** fails on the code: `fetchAndParse` has no "is this still the
current attempt" guard before committing, so a superseded attempt whose last
awaited promise settled just before the superseding `loadPlaylist` call still
runs its continuation and commits.  In the schedule below, attempt 1's
`response.text()` promise settles, then `loadPlaylist` starts attempt 2
(aborting controller 1 — to no effect, the promise being already settled),
then attempt 1's queued continuation runs: the final state shows attempt 1's
stale channels committed, the loading flag cleared, and the shared
`abortRef` nulled while attempt 2 is still in flight. -/
theorem stale_attempt_commits :
    (runWorld [Ev.load 1 "#EXTINF:-1,A\nhttp://a/1", Ev.settle 1, Ev.run 1,
               Ev.settle 1, Ev.load 2 "#EXTINF:-1,B\nhttp://b/2",
               Ev.run 1]).hook.channels =
      (parseM3U "#EXTINF:-1,A\nhttp://a/1").channels ∧
    (runWorld [Ev.load 1 "#EXTINF:-1,A\nhttp://a/1", Ev.settle 1, Ev.run 1,
               Ev.settle 1, Ev.load 2 "#EXTINF:-1,B\nhttp://b/2",
               Ev.run 1]).hook.channels ≠
      (parseM3U "#EXTINF:-1,B\nhttp://b/2").channels ∧
    (runWorld [Ev.load 1 "#EXTINF:-1,A\nhttp://a/1", Ev.settle 1, Ev.run 1,
               Ev.settle 1, Ev.load 2 "#EXTINF:-1,B\nhttp://b/2",
               Ev.run 1]).hook.loading = false ∧
    (runWorld [Ev.load 1 "#EXTINF:-1,A\nhttp://a/1", Ev.settle 1, Ev.run 1,
               Ev.settle 1, Ev.load 2 "#EXTINF:-1,B\nhttp://b/2",
               Ev.run 1]).hook.abortRef = none ∧
    getProc (runWorld [Ev.load 1 "#EXTINF:-1,A\nhttp://a/1", Ev.settle 1, Ev.run 1,
               Ev.settle 1, Ev.load 2 "#EXTINF:-1,B\nhttp://b/2",
               Ev.run 1]) 2 =
      some ⟨Pc.awaitFetch, Pending.unsettled, "#EXTINF:-1,B\nhttp://b/2"⟩ := by
  refine ⟨by decide, by decide, by decide, by decide, by decide⟩

/-! ## Claim C5 -/

/-- **C5** (as amended): at `fetchAndParse`'s catch site every observed
`AbortError` — whether produced by the timeout timer, by `cancelLoad`, or by
a superseding load's abort — is classified as the timed-out error, never as a
cancelled one; the cancelled message is written only synchronously by
`cancelLoad` itself (and can subsequently be overwritten by the timed-out
message when the aborted call's rejection is observed, as the counterexample
shows). -/
theorem abort_surfaced_as_timeout :
    ∀ (w : World) (k : Nat) (pr : Proc),
      getProc w k = some pr → pr.pending = Pending.queuedAbort →
      (step w (Ev.run k)).hook.error = some timeoutMsg := by
  intro w k pr h hp
  obtain ⟨pc, pending, content⟩ := pr
  simp only at hp
  subst hp
  cases pc <;> simp [step, h, finishErr]

/-- Witness for C5's amended theorem: the `AbortError` produced by a
user-initiated `cancelLoad` is surfaced with the timed-out message. -/
theorem abort_surfaced_as_timeout_witness :
    (step (runWorld [Ev.load 1 "x", Ev.cancel]) (Ev.run 1)).hook.error =
      some timeoutMsg :=
  abort_surfaced_as_timeout (runWorld [Ev.load 1 "x", Ev.cancel]) 1
    ⟨Pc.awaitFetch, Pending.queuedAbort, "x"⟩ (by decide) rfl

/-- Counterexample to **C5** as stated: a user-initiated cancellation's abort
is *not* surfaced as the cancelled kind — once the aborted fetch's rejection
is observed, the error state holds the timed-out message, which differs from
the cancelled message. -/
theorem cancel_abort_misclassified :
    (runWorld [Ev.load 1 "x", Ev.cancel, Ev.run 1]).hook.error = some timeoutMsg ∧
    timeoutMsg ≠ cancelledMsg := by
  refine ⟨by decide, by decide⟩

/-! ## Claim C6 -/

/-- **C6**: `cancelLoad()` leaves the committed channel and category
collections untouched (in every hook state whatsoever, in-flight load or
not), clears the loading flag, and sets the error state to the cancelled
message; the cancellation step never overwrites previously loaded data. -/
theorem cancelLoad_preserves_data :
    ∀ w : World,
      (step w Ev.cancel).hook.channels = w.hook.channels ∧
      (step w Ev.cancel).hook.categories = w.hook.categories ∧
      (step w Ev.cancel).hook.loading = false ∧
      (step w Ev.cancel).hook.error = some cancelledMsg := by
  intro w
  cases h : w.hook.abortRef <;> simp [step, abortCurrent, abortCtrl, h]

end IPTV
